import Mathlib

/-!
Verification of the damage-control policy-decision engine.

This file gives a shallow embedding of the two PreToolUse hooks of the
repository: the Bash-command hook (bash-tool-damage-control.ts) and the
Write-tool hook.  JavaScript strings are modelled as `List Char`; the
JavaScript RegExp evaluation used by the hooks is modelled by a small
total regular-expression engine (`endsR`) over an AST that covers exactly
the constructs occurring in the hooks' fixed regex templates (literals,
character classes, the dot, concatenation, Kleene star, negative
lookahead and word boundaries).  External library functions that the
hooks call (node's path.normalize, the RegExp compiler applied to
user-supplied pattern strings, os.homedir) are taken as parameters of the
embedded functions.
-/

/-! ### JavaScript string helpers -/

/-- whitespace as in the JavaScript regex class backslash-s (ASCII part)
and String.prototype.trim. -/
def isSpaceChar (c : Char) : Bool :=
  c = ' ' || c = '\t' || c = '\n' || c = '\r' || c = Char.ofNat 11 || c = Char.ofNat 12

/-- word characters as in the JavaScript regex class backslash-w. -/
def isWordChar (c : Char) : Bool := c.isAlphanum || c = '_'

/-- characters of the class a-zA-Z0-9_.- used by the zero-access suffix
guard in checkCommand. -/
def isSuffixGuardChar (c : Char) : Bool :=
  c.isAlphanum || c = '_' || c = '.' || c = '-'

/-- model of String.prototype.trim. -/
def jsTrim (s : List Char) : List Char :=
  ((s.dropWhile isSpaceChar).reverse.dropWhile isSpaceChar).reverse

/-- fuelled worker for `splitWs`; the fuel is at least the length of the
remaining text, so the zero-fuel arm is unreachable. -/
def splitWsF : Nat → List Char → List Char → List (List Char)
  | _, cur, [] => [cur.reverse]
  | 0, cur, _ :: _ => [cur.reverse]
  | fuel + 1, cur, c :: rest =>
    if isSpaceChar c then cur.reverse :: splitWsF fuel [] (rest.dropWhile isSpaceChar)
    else splitWsF fuel (c :: cur) rest

/-- model of String.prototype.split on the regex backslash-s-plus: split
at maximal whitespace runs (a leading run yields a leading empty token, a
trailing run a trailing one, as in JavaScript). -/
def splitWs (s : List Char) : List (List Char) := splitWsF (s.length + 1) [] s

/-- model of String.prototype.includes (substring containment). -/
def containsSub (hay ndl : List Char) : Bool :=
  hay.tails.any (fun t => ndl.isPrefixOf t)

/-- model of Array.prototype.join with separator a single space. -/
def joinSpace : List (List Char) → List Char
  | [] => []
  | [x] => x
  | x :: y :: rest => x ++ ' ' :: joinSpace (y :: rest)

/-- model of s.replace(leading tilde regex, homedir). -/
def expandTilde (s home : List Char) : List Char :=
  match s with
  | a :: rest => if a = '~' then home ++ rest else a :: rest
  | [] => []

/-- whether the last character is a slash. -/
def lastIsSlash (s : List Char) : Bool := s.getLast? = some '/'

/-- model of s.replace(trailing slash regex, empty): strips one trailing
slash when present. -/
def stripTrailingSlash (s : List Char) : List Char :=
  if lastIsSlash s then s.dropLast else s

/-- model of String.prototype.toLowerCase. -/
def toLowerL (s : List Char) : List Char := s.map Char.toLower

/-- model of Array.prototype.indexOf restricted to its guarded uses (the
callers first test membership). -/
def indexOfTok : List (List Char) → List Char → Nat
  | [], _ => 0
  | a :: rest, x => if a = x then 0 else indexOfTok rest x + 1

/-- decimal digits of a natural number (fuelled worker). -/
def natDigitsF : Nat → Nat → List Char
  | _, 0 => []
  | 0, _ => []
  | fuel + 1, n => natDigitsF fuel (n / 10) ++ [Char.ofNat (48 + n % 10)]

/-- decimal rendering of a natural number, as used for pattern ids. -/
def natStr (n : Nat) : List Char :=
  if n = 0 then ['0'] else natDigitsF (n + 1) n

/-! ### A total regular-expression engine

The hooks' fixed templates use only: literal text, the dot, character
classes, star, plus, one negative lookahead and word boundaries.  The
engine computes, for a set of start positions in the subject string, the
set of end positions at which the expression can stop matching; a star is
evaluated by saturation (positions are bounded by the string length, so
the saturation fuel `length + 2` is always sufficient).  This gives the
exact match-existence semantics of a backtracking engine, without
backtracking. -/

inductive Regex : Type where
  | eps : Regex
  | lit : List Char → Regex
  | anyc : Regex
  | cls : (Char → Bool) → Regex
  | cat : Regex → Regex → Regex
  | star : Regex → Regex
  | nla : Regex → Regex
  | wb : Regex

/-- character comparison, optionally case-insensitive (JavaScript i
flag). -/
def charEq (ci : Bool) (p c : Char) : Bool :=
  if ci then p.toLower = c.toLower else p = c

/-- does the literal `l` match a prefix of the suffix `cs`. -/
def litAt (ci : Bool) : List Char → List Char → Bool
  | [], _ => true
  | _ :: _, [] => false
  | p :: ps, c :: cs => charEq ci p c && litAt ci ps cs

/-- whether the character at absolute index `i` is a word character. -/
def wAt (s : List Char) (i : Nat) : Bool :=
  match s.get? i with
  | some c => isWordChar c
  | none => false

/-- word boundary at absolute index `i` (JavaScript backslash-b). -/
def boundaryAt (s : List Char) (i : Nat) : Bool :=
  (if i = 0 then false else wAt s (i - 1)) != wAt s i

/-- saturation loop for star: repeatedly apply the one-iteration step `f`
and accumulate new positions not exceeding `bound`. -/
def saturate (f : List Nat → List Nat) (bound : Nat) : Nat → List Nat → List Nat
  | 0, acc => acc
  | n + 1, acc =>
    let nw := (((f acc).filter (fun j => !(acc.contains j) && decide (j ≤ bound))).dedup)
    if nw.isEmpty then acc else saturate f bound n (acc ++ nw)

/-- end positions reachable by matching `r` in `s` from any of the start
positions `st`. -/
def endsR (ci : Bool) (s : List Char) : Regex → List Nat → List Nat
  | .eps, st => st
  | .lit l, st =>
    st.filterMap (fun i => if litAt ci l (s.drop i) then some (i + l.length) else none)
  | .anyc, st =>
    st.filterMap (fun i =>
      match s.get? i with
      | some c => if c = '\n' || c = '\r' then none else some (i + 1)
      | none => none)
  | .cls p, st =>
    st.filterMap (fun i =>
      match s.get? i with
      | some c => if p c then some (i + 1) else none
      | none => none)
  | .cat a b, st => endsR ci s b (endsR ci s a st)
  | .star a, st => saturate (fun st2 => endsR ci s a st2) s.length (s.length + 2) st.dedup
  | .nla a, st => st.filter (fun i => (endsR ci s a [i]).isEmpty)
  | .wb, st => st.filter (fun i => boundaryAt s i)

/-- model of RegExp.prototype.test: an unanchored match exists. -/
def rtest (ci : Bool) (r : Regex) (s : List Char) : Bool :=
  !(endsR ci s r (List.range (s.length + 1))).isEmpty

/-- anchored full match (a caret-dollar wrapped test). -/
def fullMatchR (ci : Bool) (r : Regex) (s : List Char) : Bool :=
  (endsR ci s r [0]).contains s.length

/-- the regex backslash-s as an AST node. -/
def rsp : Regex := .cls isSpaceChar

/-- backslash-s star. -/
def rsps : Regex := .star rsp

/-- backslash-s plus. -/
def rsp1 : Regex := .cat rsp (.star rsp)

/-- dot star. -/
def rany : Regex := .star .anyc

/-- word boundary followed by a literal word. -/
def wbWord (w : List Char) : Regex := .cat .wb (.lit w)

/-! ### Operation templates (bash-tool-damage-control.ts lines 162-214)

Each template is a regex ending in the path placeholder.  `srcPre` is the
source text of the template up to the placeholder and `pre` is its
regex AST; instantiation appends the (regex-escaped, hence literal) path,
modelled by concatenating a literal node. -/

structure OpTemplate where
  srcPre : List Char
  pre : Regex
  op : List Char

/-- template of shape: word-boundary WORD backslash-s-plus dot-star. -/
def opWordTail (w : List Char) (oper : List Char) : OpTemplate :=
  ⟨('\\' :: 'b' :: w) ++ "\\s+.*".data, .cat (wbWord w) (.cat rsp1 rany), oper⟩

def WRITE_PATTERNS : List OpTemplate := [
  ⟨">\\s*".data, .cat (.lit (">".data)) rsps, "write".data⟩,
  ⟨"\\btee\\s+(?!.*-a).*".data,
    .cat (wbWord ("tee".data))
      (.cat rsp1 (.cat (.nla (.cat rany (.lit ("-a".data)))) rany)),
    "write".data⟩ ]

def APPEND_PATTERNS : List OpTemplate := [
  ⟨">>\\s*".data, .cat (.lit (">>".data)) rsps, "append".data⟩,
  ⟨"\\btee\\s+-a\\s+.*".data,
    .cat (wbWord ("tee".data)) (.cat rsp1 (.cat (.lit ("-a".data)) (.cat rsp1 rany))),
    "append".data⟩,
  ⟨"\\btee\\s+.*-a.*".data,
    .cat (wbWord ("tee".data)) (.cat rsp1 (.cat rany (.cat (.lit ("-a".data)) rany))),
    "append".data⟩ ]

def EDIT_PATTERNS : List OpTemplate := [
  ⟨"\\bsed\\s+-i.*".data,
    .cat (wbWord ("sed".data)) (.cat rsp1 (.cat (.lit ("-i".data)) rany)),
    "edit".data⟩,
  ⟨"\\bperl\\s+-[^\\s]*i.*".data,
    .cat (wbWord ("perl".data))
      (.cat rsp1 (.cat (.lit ("-".data))
        (.cat (.star (.cls (fun c => !isSpaceChar c))) (.cat (.lit ("i".data)) rany)))),
    "edit".data⟩,
  ⟨"\\bawk\\s+-i\\s+inplace.*".data,
    .cat (wbWord ("awk".data))
      (.cat rsp1 (.cat (.lit ("-i".data)) (.cat rsp1 (.cat (.lit ("inplace".data)) rany)))),
    "edit".data⟩ ]

def MOVE_COPY_PATTERNS : List OpTemplate := [
  ⟨"\\bmv\\s+.*\\s+".data,
    .cat (wbWord ("mv".data)) (.cat rsp1 (.cat rany rsp1)), "move".data⟩,
  ⟨"\\bcp\\s+.*\\s+".data,
    .cat (wbWord ("cp".data)) (.cat rsp1 (.cat rany rsp1)), "copy".data⟩ ]

def DELETE_PATTERNS : List OpTemplate := [
  opWordTail ("rm".data) ("delete".data),
  opWordTail ("unlink".data) ("delete".data),
  opWordTail ("rmdir".data) ("delete".data),
  opWordTail ("shred".data) ("delete".data) ]

def PERMISSION_PATTERNS : List OpTemplate := [
  opWordTail ("chmod".data) ("chmod".data),
  opWordTail ("chown".data) ("chown".data),
  opWordTail ("chgrp".data) ("chgrp".data) ]

def TRUNCATE_PATTERNS : List OpTemplate := [
  opWordTail ("truncate".data) ("truncate".data),
  ⟨":\\s*>\\s*".data,
    .cat (.lit (":".data)) (.cat rsps (.cat (.lit (">".data)) rsps)), "truncate".data⟩ ]

/-- blocked-operation template set of the read-only tier (source lines
204-212: the spread of all seven kind lists, in source order). -/
def READ_ONLY_BLOCKED : List OpTemplate :=
  WRITE_PATTERNS ++ APPEND_PATTERNS ++ EDIT_PATTERNS ++ MOVE_COPY_PATTERNS ++
    DELETE_PATTERNS ++ PERMISSION_PATTERNS ++ TRUNCATE_PATTERNS

/-- blocked-operation template set of the no-delete tier (source line
214). -/
def NO_DELETE_BLOCKED : List OpTemplate := DELETE_PATTERNS

/-! ### Shell-wrapper unwrapping (source lines 319-391)

The three wrapper regexes are fixed in the source; they are modelled by
specialized leftmost-match scanners.  A scanner walks every start
position (checking the word boundary demanded by the leading
backslash-b), and at each position deterministically consumes the
whitespace runs and literal parts; the lazy quoted capture takes the
shortest non-empty span up to the next occurrence of the opening quote,
provided it contains no line terminator (the dot of the lazy plus
excludes them). -/

def singleQuote : Char := Char.ofNat 39

def isQuoteChar (c : Char) : Bool := c = '"' || c = singleQuote

def notQuoteChar (c : Char) : Bool := !isQuoteChar c

def nonTermChar (c : Char) : Bool := !(c = '\n' || c = '\r')

/-- lazy quoted capture: given the text right after an opening quote `q`,
return the shortest non-empty prefix closed by `q`, if its characters are
all matchable by the dot. -/
def closeQuoted (q : Char) (rest : List Char) : Option (List Char) :=
  match (rest.drop 1).findIdx? (fun d => d = q) with
  | some k => if (rest.take (k + 1)).all nonTermChar then some (rest.take (k + 1)) else none
  | none => none

/-- attempt of the wrapper regex WORD backslash-s-plus -c backslash-s-plus
quoted-capture at the head of `sfx` (the boundary has been checked by the
scanner). -/
def tryCWrapAt (w : List Char) (sfx : List Char) : Option (List Char) :=
  if w.isPrefixOf sfx then
    let r1 := sfx.drop w.length
    if r1.head?.any isSpaceChar then
      let r2 := r1.dropWhile isSpaceChar
      if ("-c".data).isPrefixOf r2 then
        let r3 := r2.drop 2
        if r3.head?.any isSpaceChar then
          let r4 := r3.dropWhile isSpaceChar
          match r4 with
          | q :: rest => if isQuoteChar q then closeQuoted q rest else none
          | [] => none
        else none
      else none
    else none
  else none

/-- word boundary before a word-initial pattern: start of string or a
non-word previous character. -/
def boundaryOkPrev : Option Char → Bool
  | none => true
  | some c => !isWordChar c

/-- leftmost scan of a boundary-anchored attempt function over all start
positions. -/
def scanBPosGo (try1 : List Char → Option (List Char)) : Option Char → List Char → Option (List Char)
  | _, [] => none
  | prev, c :: rest =>
    match (if boundaryOkPrev prev then try1 (c :: rest) else none) with
    | some r => some r
    | none => scanBPosGo try1 (some c) rest

/-- first wrapper word whose scan matches, in source order. -/
def firstCScan : List (List Char) → List Char → Option (List Char)
  | [], _ => none
  | w :: ws, cmd =>
    match scanBPosGo (tryCWrapAt w) none cmd with
    | some r => some r
    | none => firstCScan ws cmd

def shellWrappers : List (List Char) :=
  ["bash".data, "sh".data, "zsh".data, "ksh".data, "dash".data]

def pythonWrappers : List (List Char) :=
  ["python".data, "python2".data, "python3".data]

def matchShellWrap (cmd : List Char) : Option (List Char) := firstCScan shellWrappers cmd

def matchPythonWrap (cmd : List Char) : Option (List Char) := firstCScan pythonWrappers cmd

/-! extractSystemCall (source lines 319-345): pull a literal system-call
argument out of python code text. -/

/-- unanchored leftmost scan of an attempt function (patterns without a
leading word boundary). -/
def scanPosGo (try1 : List Char → Option (List Char)) : List Char → Option (List Char)
  | [] => none
  | c :: rest =>
    match try1 (c :: rest) with
    | some r => some r
    | none => scanPosGo try1 rest

/-- suffix of shape: backslash-s-star ( backslash-s-star quote
non-quote-run quote backslash-s-star ) — the argument part of the
os.system and subprocess string patterns; returns the quoted run. -/
def quotedArgAt (r : List Char) : Option (List Char) :=
  let r1 := r.dropWhile isSpaceChar
  match r1 with
  | '(' :: r2 =>
    let r3 := r2.dropWhile isSpaceChar
    match r3 with
    | q :: r4 =>
      if isQuoteChar q then
        let content := r4.takeWhile notQuoteChar
        if content.isEmpty then none
        else
          match r4.drop content.length with
          | q2 :: r5 =>
            if isQuoteChar q2 then
              let r6 := r5.dropWhile isSpaceChar
              match r6 with
              | ')' :: _ => some content
              | _ => none
            else none
          | [] => none
      else none
    | [] => none
  | _ => none

def subNames : List (List Char) :=
  ["run".data, "call".data, "check_call".data, "check_output".data, "Popen".data]

def tryOsAt (sfx : List Char) : Option (List Char) :=
  if ("os.system".data).isPrefixOf sfx then quotedArgAt (sfx.drop 9) else none

def trySubStrAt (sfx : List Char) : Option (List Char) :=
  if ("subprocess.".data).isPrefixOf sfx then
    let r := sfx.drop 11
    match subNames.find? (fun n => n.isPrefixOf r) with
    | some n => quotedArgAt (r.drop n.length)
    | none => none
  else none

/-- argument part of the subprocess list pattern: backslash-s-star (
backslash-s-star [ non-bracket-run ] — returns the bracketed run. -/
def bracketArgAt (r : List Char) : Option (List Char) :=
  let r1 := r.dropWhile isSpaceChar
  match r1 with
  | '(' :: r2 =>
    let r3 := r2.dropWhile isSpaceChar
    match r3 with
    | '[' :: r4 =>
      let content := r4.takeWhile (fun c => !(c = ']'))
      if content.isEmpty then none
      else
        match r4.drop content.length with
        | ']' :: _ => some content
        | _ => none
    | _ => none
  | _ => none

def tryListAt (sfx : List Char) : Option (List Char) :=
  if ("subprocess.".data).isPrefixOf sfx then
    let r := sfx.drop 11
    match subNames.find? (fun n => n.isPrefixOf r) with
    | some n => bracketArgAt (r.drop n.length)
    | none => none
  else none

/-- fuelled worker collecting every quoted segment (the global quoted
regex of the list branch); the fuel is at least the length of the text. -/
def quotedSegsF : Nat → List Char → List (List Char)
  | 0, _ => []
  | _, [] => []
  | fuel + 1, c :: rest =>
    if isQuoteChar c then
      let content := rest.takeWhile notQuoteChar
      match rest.drop content.length with
      | _ :: rest2 =>
        if content.isEmpty then quotedSegsF fuel rest
        else content :: quotedSegsF fuel rest2
      | [] => []
    else quotedSegsF fuel rest

def quotedSegs (s : List Char) : List (List Char) := quotedSegsF (s.length + 1) s

def extractSystemCall (code : List Char) : Option (List Char) :=
  if code.isEmpty then none
  else
    match scanPosGo tryOsAt code with
    | some r => some r
    | none =>
      match scanPosGo trySubStrAt code with
      | some r => some r
      | none =>
        match scanPosGo tryListAt code with
        | some lc =>
          let parts := quotedSegs lc
          if parts.isEmpty then none else some (joinSpace parts)
        | none => none

/-! env-prefix wrapper (source lines 384-388). -/

def isUpperOrUnd (c : Char) : Bool := ('A' ≤ c && c ≤ 'Z') || c = '_'

def isEnvKeyChar (c : Char) : Bool := isUpperOrUnd c || ('0' ≤ c && c ≤ '9')

/-- one iteration of the starred KEY=value backslash-s-plus group:
returns (token, whitespace run, tail). -/
def parseAssign (cur : List Char) : Option (List Char × List Char × List Char) :=
  match cur with
  | c :: rest =>
    if isUpperOrUnd c then
      let key := rest.takeWhile isEnvKeyChar
      match rest.drop key.length with
      | '=' :: r2 =>
        let v := r2.takeWhile (fun d => !isSpaceChar d)
        if v.isEmpty then none
        else
          let r3 := r2.drop v.length
          let ws := r3.takeWhile isSpaceChar
          if ws.isEmpty then none
          else some ((c :: key) ++ '=' :: v, ws, r3.drop (ws.length))
      | _ => none
    else none
  | [] => none

/-- greedy starred assignments followed by a non-empty dot-plus capture,
with the backtracking a JavaScript engine performs when the remainder
would be empty: first give back one whitespace character of the last run,
then give back the last whole iteration. -/
def envGoF : Nat → List Char → Option (List Char)
  | 0, _ => none
  | fuel + 1, cur =>
    match parseAssign cur with
    | some (tok, ws, tail) =>
      match envGoF fuel tail with
      | some cap => some cap
      | none =>
        if 2 ≤ ws.length then some [(ws.getLast?).getD ' ']
        else some (tok ++ ws)
    | none => if cur.isEmpty then none else some cur

/-- attempt of the env wrapper regex at the head of `sfx`. -/
def tryEnvAt (sfx : List Char) : Option (List Char) :=
  if ("env".data).isPrefixOf sfx then
    let r1 := sfx.drop 3
    if r1.head?.any isSpaceChar then
      let ws0 := r1.takeWhile isSpaceChar
      let rest0 := r1.drop ws0.length
      match envGoF (rest0.length + 1) rest0 with
      | some cap => some cap
      | none => if 2 ≤ ws0.length then some [(ws0.getLast?).getD ' '] else none
    else none
  else none

def matchEnvWrap (cmd : List Char) : Option (List Char) := scanBPosGo tryEnvAt none cmd

/-- one unwrapping step on an already trimmed non-blank command: shell
wrappers first, then python wrappers (preferring an extracted system
call), then the env wrapper, as in the source. -/
def wrapperStep (c : List Char) : Option (List Char) :=
  match matchShellWrap c with
  | some inner => some inner
  | none =>
    match matchPythonWrap c with
    | some code =>
      match extractSystemCall code with
      | some ex => some ex
      | none => some code
    | none => matchEnvWrap c

/-- fuelled worker for unwrapCommand; the callers maintain fuel =
5 - depth, so the zero-fuel arm coincides with the depth guard. -/
def unwrapFuel : Nat → List Char → Nat → List Char × Bool
  | 0, cmd, depth => (cmd, decide (0 < depth))
  | fuel + 1, cmd, depth =>
    if 5 ≤ depth then (cmd, decide (0 < depth))
    else if cmd.isEmpty || (jsTrim cmd).isEmpty then (cmd, false)
    else
      let c := jsTrim cmd
      match wrapperStep c with
      | some inner => unwrapFuel fuel inner (depth + 1)
      | none => (c, decide (0 < depth))

/-- model of unwrapCommand (source lines 347-391). -/
def unwrapCommand (cmd : List Char) (depth : Nat) : List Char × Bool :=
  unwrapFuel (5 - depth) cmd depth

/-! ### Git semantic analysis (source lines 397-493) -/

/-- model of Array.prototype.includes on token lists. -/
def hasTok (l : List (List Char)) (x : List Char) : Bool := decide (x ∈ l)

/-- short-flag cluster test: single-dash token of length above one whose
tail contains the target letter. -/
def shortClusterHas (a : List Char) (t : Char) : Bool :=
  (("-".data).isPrefixOf a) && !(("--".data).isPrefixOf a) && decide (1 < a.length) &&
    (a.drop 1).contains t

def analyzeGitCommand (command : List Char) : Bool × List Char :=
  if command.isEmpty || (jsTrim command).isEmpty then (false, [])
  else
    let cmdT := jsTrim command
    if !(("git ".data).isPrefixOf cmdT) then (false, [])
    else
      let parts := splitWs cmdT
      if parts.length < 2 then (false, [])
      else
        let subcommand := (parts.get? 1).getD []
        let args := parts.drop 2
        let argsStr := joinSpace args
        if subcommand = "checkout".data then
          if hasTok args ("-b".data) || hasTok args ("--branch".data) then (false, [])
          else if hasTok args ("--".data) &&
              decide (indexOfTok args ("--".data) < args.length - 1) then
            (true, "git checkout with -- discards uncommitted changes".data)
          else if hasTok args ("--force".data) || hasTok args ("-f".data) then
            (true, "git checkout --force discards uncommitted changes".data)
          else if args.any (fun a => shortClusterHas a 'f') then
            (true, "git checkout -f discards uncommitted changes".data)
          else (false, [])
        else if subcommand = "push".data then
          if containsSub argsStr ("--force-with-lease".data) then (false, [])
          else if hasTok args ("--force".data) then
            (true, "git push --force can overwrite remote history without safety checks".data)
          else if hasTok args ("-f".data) then
            (true, "git push -f can overwrite remote history without safety checks".data)
          else if args.any (fun a => shortClusterHas a 'f') then
            (true, "git push -f can overwrite remote history without safety checks".data)
          else (false, [])
        else if subcommand = "reset".data then
          if hasTok args ("--soft".data) || hasTok args ("--mixed".data) then (false, [])
          else if hasTok args ("--hard".data) then
            (true, "git reset --hard permanently discards uncommitted changes".data)
          else (false, [])
        else if subcommand = "clean".data then
          if hasTok args ("-f".data) || hasTok args ("-d".data) then
            (true, "git clean removes untracked files permanently".data)
          else if args.any (fun a => shortClusterHas a 'f' || shortClusterHas a 'd') then
            (true, "git clean removes untracked files permanently".data)
          else (false, [])
        else (false, [])

/-! ### Configuration model (source lines 60-128, 501-624)

The RegExp constructor applied to user-supplied pattern text is an
external library call; it is modelled by a parameter
tc : List Char → Option (List Char → Bool) returning, when compilation
succeeds, the case-insensitive test function of the compiled regex.
Regex escaping of a literal path followed by compilation yields a regex
matching exactly that literal text, so the path objects keep the raw
strings and the checks match them with literal regex nodes. -/

structure Pattern where
  pattern : List Char
  reason : List Char
  ask : Bool
deriving Repr

structure CompiledPattern where
  pattern : List Char
  reason : List Char
  ask : Bool
  compiled : List Char → Bool

structure PathObject where
  original : List Char
  isGlob : Bool
  globRegex : Option Regex
  expanded : Option (List Char)

structure ContextCfg where
  enabled : Bool
  file_extensions : List (List Char)
  command_patterns : List (List Char)
  relaxed_checks : List (List Char)

structure Contexts where
  documentation : Option ContextCfg
  commit_message : Option ContextCfg

structure CompiledConfig where
  bashToolPatterns_compiled : List CompiledPattern
  zeroAccessPaths_compiled : List PathObject
  readOnlyPaths_compiled : List PathObject
  noDeletePaths_compiled : List PathObject
  contexts : Contexts

structure ToolInput where
  command : Option (List Char)
  file_path : Option (List Char)

structure HookInput where
  tool_name : List Char
  tool_input : ToolInput

structure CheckResult where
  blocked : Bool
  ask : Bool
  reason : List Char
  patternMatched : List Char
  wasUnwrapped : Bool
  semanticMatch : Bool
deriving DecidableEq

/-- model of isGlobPattern (both hooks). -/
def isGlobPattern (p : List Char) : Bool :=
  p.contains '*' || p.contains '?' || p.contains '['

/-- glob-to-regex translation of the Bash hook (source lines 138-152):
star and question mark map to runs of characters that are neither
whitespace nor slash; every other character is matched literally (the
escaping branch only makes metacharacters literal). -/
def globCharRegex (c : Char) : Regex :=
  if c = '*' then .star (.cls (fun d => !isSpaceChar d && !(d = '/')))
  else if c = '?' then .cls (fun d => !isSpaceChar d && !(d = '/'))
  else .lit [c]

def globToRegexAst (p : List Char) : Regex :=
  p.foldr (fun c acc => .cat (globCharRegex c) acc) .eps

/-- model of preprocessPathList (source lines 523-558); the glob branch
cannot fail because globToRegex escapes every metacharacter. -/
def mkPathObject (homedir p : List Char) : PathObject :=
  if isGlobPattern p then ⟨p, true, some (globToRegexAst p), none⟩
  else ⟨p, false, none, some (expandTilde p homedir)⟩

def preprocessPathList (homedir : List Char) : List (List Char) → List PathObject
  | [] => []
  | p :: rest =>
    if p.isEmpty then preprocessPathList homedir rest
    else mkPathObject homedir p :: preprocessPathList homedir rest

/-- model of compileRegexPatterns (source lines 501-521): empty
expressions are skipped, failing compilations are dropped with a warning,
all other patterns are kept in order. -/
def compileRegexPatterns (tc : List Char → Option (List Char → Bool)) :
    List Pattern → List CompiledPattern
  | [] => []
  | p :: rest =>
    if p.pattern.isEmpty then compileRegexPatterns tc rest
    else
      match tc p.pattern with
      | some f => ⟨p.pattern, p.reason, p.ask, f⟩ :: compileRegexPatterns tc rest
      | none => compileRegexPatterns tc rest

/-- lookup of a context block by name, as the bracket access on the
contexts object (unknown names yield none). -/
def ctxLookup (cs : Contexts) (name : List Char) : Option ContextCfg :=
  if name = "documentation".data then cs.documentation
  else if name = "commit_message".data then cs.commit_message
  else none

/-- relaxed-check set of the active context (source lines 734-735). -/
def relaxedChecksOf (cs : Contexts) : Option (List Char) → List (List Char)
  | none => []
  | some name =>
    match ctxLookup cs name with
    | some c => c.relaxed_checks
    | none => []

/-- model of detectContext of the Bash hook (source lines 630-670). -/
def detectContext (tc : List Char → Option (List Char → Bool))
    (toolName : List Char) (ti : ToolInput) (cs : Contexts) : Option (List Char) :=
  let doc :=
    if toolName = "Edit".data || toolName = "Write".data then
      match cs.documentation with
      | some d =>
        if d.enabled &&
            d.file_extensions.any (fun e => e.isSuffixOf ((ti.file_path).getD [])) then
          some ("documentation".data)
        else none
      | none => none
    else none
  match doc with
  | some r => some r
  | none =>
    if toolName = "Bash".data then
      match cs.commit_message with
      | some c =>
        if c.enabled &&
            c.command_patterns.any (fun p =>
              match tc p with
              | some f => f ((ti.command).getD [])
              | none => false) then
          some ("commit_message".data)
        else none
      | none => none
    else none

/-! ### Path checking against operation templates (source lines 676-730) -/

/-- instantiated template for a literal path form: the template regex
followed by the escaped path, which matches the path text literally. -/
def instLit (t : OpTemplate) (path : List Char) : Regex := .cat t.pre (.lit path)

/-- template loop of checkPathPatterns for a glob rule. -/
def tmplLoopG (cmd : List Char) (g : Regex) (pathStr pathType : List Char) :
    List OpTemplate → Option (List Char)
  | [] => none
  | t :: rest =>
    if !t.srcPre.isEmpty && rtest true (.cat t.pre g) cmd then
      some (("Blocked: ".data) ++ t.op ++ (" operation on ".data) ++ pathType ++
        (" ".data) ++ pathStr)
    else tmplLoopG cmd g pathStr pathType rest

/-- template loop of checkPathPatterns for a literal rule: each template
is tried with the home-expanded and the original path form. -/
def tmplLoopL (cmd eexp eorig pathStr pathType : List Char) :
    List OpTemplate → Option (List Char)
  | [] => none
  | t :: rest =>
    if rtest false (instLit t eexp) cmd || rtest false (instLit t eorig) cmd then
      some (("Blocked: ".data) ++ t.op ++ (" operation on ".data) ++ pathType ++
        (" ".data) ++ pathStr)
    else tmplLoopL cmd eexp eorig pathStr pathType rest

/-- model of checkPathPatterns (source lines 676-730). -/
def checkPathPatterns (command : List Char) (po : PathObject)
    (tmpls : List OpTemplate) (pathType : List Char) : Bool × List Char :=
  if po.isGlob then
    match po.globRegex with
    | none => (false, [])
    | some g =>
      match tmplLoopG command g po.original pathType tmpls with
      | some reason => (true, reason)
      | none => (false, [])
  else
    let eexp := (po.expanded).getD []
    let eorig := po.original
    if eexp.isEmpty || eorig.isEmpty then (false, [])
    else
      match tmplLoopL command eexp eorig po.original pathType tmpls with
      | some reason => (true, reason)
      | none => (false, [])

/-! ### checkCommand (source lines 732-894), one stage per check -/

/-- semantic-git stage: a dangerous analysis immediately yields ask. -/
def gitStage (relaxed : List (List Char)) (uw : List Char) (wasU : Bool) :
    Option CheckResult :=
  if (relaxed.contains ("semantic_git".data)) then none
  else
    if (analyzeGitCommand uw).1 then
      some ⟨false, true, (analyzeGitCommand uw).2, "semantic_git".data, wasU, true⟩
    else none

/-- positional identifier of a configured pattern. -/
def patId (idx : Nat) : List Char := ("yaml_pattern_".data) ++ natStr idx

/-- loop over the compiled patterns, first match wins. -/
def patLoop (uw : List Char) (wasU : Bool) : Nat → List CompiledPattern → Option CheckResult
  | _, [] => none
  | idx, p :: rest =>
    if p.compiled uw then
      if p.ask then some ⟨false, true, p.reason, patId idx, wasU, false⟩
      else some ⟨true, false, ("Blocked: ".data) ++ p.reason, patId idx, wasU, false⟩
    else patLoop uw wasU (idx + 1) rest

def patStage (relaxed : List (List Char)) (uw : List Char) (wasU : Bool)
    (pats : List CompiledPattern) : Option CheckResult :=
  if (relaxed.contains ("bashToolPatterns".data)) then none
  else patLoop uw wasU 0 pats

/-- literal zero-access test for a file rule: the escaped path followed by
the suffix guard that forbids a token character right after the match. -/
def zeroLitFile (path uw : List Char) : Bool :=
  !path.isEmpty && rtest false (.cat (.lit path) (.nla (.cls isSuffixGuardChar))) uw

/-- literal zero-access test for a directory rule (trailing slash):
plain containment. -/
def zeroLitDir (path uw : List Char) : Bool :=
  !path.isEmpty && rtest false (.lit path) uw

/-- literal zero-access hit for a path object: the directory form for a
trailing-slash rule, the suffix-guarded file form otherwise, each tried
with the home-expanded and the original path text. -/
def zeroLitHit (po : PathObject) (uw : List Char) : Bool :=
  if lastIsSlash po.original then
    zeroLitDir ((po.expanded).getD []) uw || zeroLitDir po.original uw
  else
    zeroLitFile ((po.expanded).getD []) uw || zeroLitFile po.original uw

/-- loop over zero-access path objects (source lines 789-850). -/
def zeroLoop (uw : List Char) (wasU : Bool) : List PathObject → Option CheckResult
  | [] => none
  | po :: rest =>
    if po.isGlob then
      match po.globRegex with
      | some g =>
        if rtest true g uw then
          some ⟨true, false,
            ("Blocked: zero-access pattern ".data) ++ po.original ++
              (" (no operations allowed)".data),
            "zero_access_glob".data, wasU, false⟩
        else zeroLoop uw wasU rest
      | none => zeroLoop uw wasU rest
    else
      if zeroLitHit po uw then
        some ⟨true, false,
          ("Blocked: zero-access path ".data) ++ po.original ++
            (" (no operations allowed)".data),
          "zero_access_literal".data, wasU, false⟩
      else zeroLoop uw wasU rest

def zeroStage (relaxed : List (List Char)) (uw : List Char) (wasU : Bool)
    (zs : List PathObject) : Option CheckResult :=
  if (relaxed.contains ("zeroAccessPaths".data)) then none
  else zeroLoop uw wasU zs

/-- loop over read-only path objects (source lines 853-867). -/
def roLoop (uw : List Char) (wasU : Bool) : List PathObject → Option CheckResult
  | [] => none
  | po :: rest =>
    if (checkPathPatterns uw po READ_ONLY_BLOCKED ("read-only path".data)).1 then
      some ⟨true, false, (checkPathPatterns uw po READ_ONLY_BLOCKED ("read-only path".data)).2,
        "readonly_path".data, wasU, false⟩
    else roLoop uw wasU rest

def roStage (relaxed : List (List Char)) (uw : List Char) (wasU : Bool)
    (ros : List PathObject) : Option CheckResult :=
  if (relaxed.contains ("readOnlyPaths".data)) then none
  else roLoop uw wasU ros

/-- loop over no-delete path objects (source lines 870-884). -/
def ndLoop (uw : List Char) (wasU : Bool) : List PathObject → Option CheckResult
  | [] => none
  | po :: rest =>
    if (checkPathPatterns uw po NO_DELETE_BLOCKED ("no-delete path".data)).1 then
      some ⟨true, false, (checkPathPatterns uw po NO_DELETE_BLOCKED ("no-delete path".data)).2,
        "nodelete_path".data, wasU, false⟩
    else ndLoop uw wasU rest

def ndStage (relaxed : List (List Char)) (uw : List Char) (wasU : Bool)
    (nds : List PathObject) : Option CheckResult :=
  if (relaxed.contains ("noDeletePaths".data)) then none
  else ndLoop uw wasU nds

/-- model of checkCommand (source lines 732-894). -/
def checkCommand (command : List Char) (cfg : CompiledConfig)
    (context : Option (List Char)) : CheckResult :=
  let relaxed := relaxedChecksOf cfg.contexts context
  let u := unwrapCommand command 0
  match gitStage relaxed u.1 u.2 with
  | some r => r
  | none =>
    match patStage relaxed u.1 u.2 cfg.bashToolPatterns_compiled with
    | some r => r
    | none =>
      match zeroStage relaxed u.1 u.2 cfg.zeroAccessPaths_compiled with
      | some r => r
      | none =>
        match roStage relaxed u.1 u.2 cfg.readOnlyPaths_compiled with
        | some r => r
        | none =>
          match ndStage relaxed u.1 u.2 cfg.noDeletePaths_compiled with
          | some r => r
          | none => ⟨false, false, [], [], u.2, false⟩

/-! ### Bash hook main (source lines 900-972), as a pure decision -/

inductive Verdict : Type where
  | allow : Verdict
  | block : List Char → Verdict
  | ask : List Char → Verdict
deriving DecidableEq

/-- decision part of the Bash hook entry point: disabled hooks and
non-Bash tools pass, a missing or empty command passes, otherwise the
command check decides. -/
def bashHookMain (disabled : Bool) (tc : List Char → Option (List Char → Bool))
    (input : HookInput) (cfg : CompiledConfig) : Verdict :=
  if disabled then .allow
  else if !(input.tool_name = "Bash".data) then .allow
  else
    let command := (input.tool_input.command).getD []
    if command.isEmpty then .allow
    else
      let context := detectContext tc input.tool_name input.tool_input cfg.contexts
      let result := checkCommand command cfg context
      if result.blocked then .block result.reason
      else if result.ask then .ask result.reason
      else .allow

/-! ### The Write-tool hook (part of the sources with unknown file name)

matchGlob translates the lowercased pattern with star mapping to dot-star
and question mark to dot, compiles it anchored with the i flag, and tests
the lowercased subject.  normalize (node path.normalize) and the home
directory are external and passed as parameters. -/

def globCharRegexW (c : Char) : Regex :=
  if c = '*' then .star .anyc
  else if c = '?' then .anyc
  else .lit [c]

def globToRegexAstW (p : List Char) : Regex :=
  p.foldr (fun c acc => .cat (globCharRegexW c) acc) .eps

/-- model of matchGlob. -/
def matchGlob (s pat : List Char) : Bool :=
  fullMatchR true (globToRegexAstW (toLowerL pat)) (toLowerL s)

/-- model of node path.basename, external to the repository: the last
path segment, ignoring trailing slashes. -/
def baseName (s : List Char) : List Char :=
  let t := s.reverse.dropWhile (fun c => c = '/')
  if t.isEmpty then s else (t.takeWhile (fun c => !(c = '/'))).reverse

/-- node path.sep on the posix platforms the hook targets. -/
def pathSep : Char := '/'

/-- model of matchPath of the Write-tool hook. -/
def matchPath (normalize : List Char → List Char) (homedir : List Char)
    (filePath pattern2 : List Char) : Bool :=
  let expandedPat := expandTilde pattern2 homedir
  let normalized := expandTilde (normalize filePath) homedir
  if isGlobPattern pattern2 then
    let fileBase := baseName normalized
    if matchGlob fileBase expandedPat || matchGlob fileBase pattern2 then true
    else if matchGlob normalized expandedPat then true
    else false
  else
    let patNoSlash := stripTrailingSlash expandedPat
    if normalized = expandedPat || normalized = patNoSlash then true
    else if lastIsSlash expandedPat && expandedPat.isPrefixOf normalized then true
    else if (patNoSlash ++ ['/']).isPrefixOf normalized ||
        (patNoSlash ++ [pathSep]).isPrefixOf normalized then true
    else false

structure WContexts where
  documentation : Option ContextCfg

structure WConfig where
  zeroAccessPaths : List (List Char)
  readOnlyPaths : List (List Char)
  contexts : WContexts

/-- context lookup of the Write-tool hook: only the documentation block
exists on its contexts object. -/
def relaxedOfW (cs : WContexts) : Option (List Char) → List (List Char)
  | none => []
  | some name =>
    if name = "documentation".data then
      match cs.documentation with
      | some c => c.relaxed_checks
      | none => []
    else []

/-- rule loop of checkPath: first matching rule of a tier. -/
def firstMatchingRule (normalize : List Char → List Char) (homedir fp : List Char) :
    List (List Char) → Option (List Char)
  | [] => none
  | r :: rest =>
    if matchPath normalize homedir fp r then some r
    else firstMatchingRule normalize homedir fp rest

/-- model of checkPath of the Write-tool hook: zero-access rules first,
then read-only rules, each tier skipped when relaxed. -/
def checkPath (normalize : List Char → List Char) (homedir fp : List Char)
    (cfg : WConfig) (context : Option (List Char)) : Bool × List Char :=
  let relaxed := relaxedOfW cfg.contexts context
  let zhit :=
    if relaxed.contains ("zeroAccessPaths".data) then none
    else firstMatchingRule normalize homedir fp cfg.zeroAccessPaths
  match zhit with
  | some zp => (true, ("zero-access path ".data) ++ zp ++ (" (no operations allowed)".data))
  | none =>
    let rhit :=
      if relaxed.contains ("readOnlyPaths".data) then none
      else firstMatchingRule normalize homedir fp cfg.readOnlyPaths
    match rhit with
    | some rp => (true, ("read-only path ".data) ++ rp)
    | none => (false, [])

/-- model of detectContext of the Write-tool hook. -/
def detectContextW (toolName : List Char) (ti : ToolInput) (cs : WContexts) :
    Option (List Char) :=
  if toolName = "Edit".data || toolName = "Write".data then
    match cs.documentation with
    | some d =>
      if d.enabled &&
          d.file_extensions.any (fun e => e.isSuffixOf ((ti.file_path).getD [])) then
        some ("documentation".data)
      else none
    | none => none
  else none

/-- decision part of the Write-tool hook entry point. -/
def writeHookMain (normalize : List Char → List Char) (homedir : List Char)
    (input : HookInput) (cfg : WConfig) : Verdict :=
  if !(input.tool_name = "Write".data) then .allow
  else
    let fp := (input.tool_input.file_path).getD []
    if fp.isEmpty then .allow
    else
      let context := detectContextW input.tool_name input.tool_input cfg.contexts
      let r := checkPath normalize homedir fp cfg context
      if r.1 then .block r.2 else .allow

/-! ### Concrete configurations used by closed theorems -/

/-- example home directory for concrete evaluations. -/
def exHome : List Char := "/home/u".data

/-- contexts object with no context configured. -/
def noCtx : Contexts := ⟨none, none⟩

/-- empty compiled configuration. -/
def emptyCfg : CompiledConfig := ⟨[], [], [], [], noCtx⟩

/-- configuration protecting the ssh directory at the zero-access tier. -/
def sshZeroCfg : CompiledConfig :=
  ⟨[], preprocessPathList exHome [("~/.ssh/".data)], [], [], noCtx⟩

/-- configuration protecting the ssh directory at the read-only tier. -/
def sshReadOnlyCfg : CompiledConfig :=
  ⟨[], [], preprocessPathList exHome [("~/.ssh/".data)], [], noCtx⟩

/-- configuration with the literal file rule /r/secret at the read-only
tier. -/
def secretReadOnlyCfg : CompiledConfig :=
  ⟨[], [], preprocessPathList exHome [("/r/secret".data)], [], noCtx⟩

/-! ### Claim C1 -/

/-- blocked-operation set the claim asserts for the read-only tier: every
operation kind except delete. -/
def READ_ONLY_CLAIMED : List OpTemplate :=
  WRITE_PATTERNS ++ APPEND_PATTERNS ++ EDIT_PATTERNS ++ MOVE_COPY_PATTERNS ++
    PERMISSION_PATTERNS ++ TRUNCATE_PATTERNS

/-- C1, counterexample: the read-only blocked set evaluated by the Bash
hook contains the delete templates, so it is not the union of every kind
except delete as the claim states. -/
theorem c1_counterexample :
    ("delete".data) ∈ READ_ONLY_BLOCKED.map (fun t => t.op) ∧
    ¬ ("delete".data) ∈ READ_ONLY_CLAIMED.map (fun t => t.op) := by
  exact ⟨by decide, by decide⟩

/-- C1, amended: for a read-only path rule the evaluated template set is
the union of all seven operation kinds, delete included, and for a
no-delete path rule it is the delete templates only. -/
theorem c1_template_sets :
    (∀ t : OpTemplate, t ∈ READ_ONLY_BLOCKED ↔
      (t ∈ WRITE_PATTERNS ∨ t ∈ APPEND_PATTERNS ∨ t ∈ EDIT_PATTERNS ∨
        t ∈ MOVE_COPY_PATTERNS ∨ t ∈ DELETE_PATTERNS ∨ t ∈ PERMISSION_PATTERNS ∨
        t ∈ TRUNCATE_PATTERNS)) ∧
    (∀ t : OpTemplate, t ∈ NO_DELETE_BLOCKED ↔ t ∈ DELETE_PATTERNS) := by
  constructor
  · intro t
    simp [READ_ONLY_BLOCKED, List.mem_append, or_assoc]
  · intro t
    simp [NO_DELETE_BLOCKED]

/-- C1, witness: the first delete template is in the read-only blocked
set by the amended characterization. -/
theorem c1_witness :
    opWordTail ("rm".data) ("delete".data) ∈ READ_ONLY_BLOCKED := by
  exact (c1_template_sets.1 _).mpr
    (Or.inr (Or.inr (Or.inr (Or.inr (Or.inl (List.mem_cons_self _ _))))))

/-! ### Claim C3 -/

/-- C3: with the ssh directory as a zero-access rule the read command is
blocked; with it as a read-only rule the read command is allowed but a
redirect write into it is blocked. -/
theorem c3_ssh_tiers :
    (checkCommand ("cat ~/.ssh/id_rsa".data) sshZeroCfg none).blocked = true ∧
    (checkCommand ("cat ~/.ssh/id_rsa".data) sshReadOnlyCfg none).blocked = false ∧
    (checkCommand ("cat ~/.ssh/id_rsa".data) sshReadOnlyCfg none).ask = false ∧
    (checkCommand ("echo x > ~/.ssh/id_rsa".data) sshReadOnlyCfg none).blocked = true := by
  exact ⟨by decide, by decide, by decide, by decide⟩

/-! ### Claim C2, counterexample -/

/-- C2, counterexample: the read-only command check substitutes the
literal rule into the operation templates with no boundary guard, so the
rule /r/secret matches the distinct sibling file /r/secrets (the rule
followed by the alphanumeric character s) and the command is blocked. -/
theorem c2_counterexample :
    (checkCommand ("echo x > /r/secrets".data) secretReadOnlyCfg none).blocked = true ∧
    (checkCommand ("echo x > /r/secrets".data) secretReadOnlyCfg none).reason =
      ("Blocked: write operation on read-only path /r/secret".data) := by
  exact ⟨by decide, by decide⟩

/-! ### Claim C6, counterexample -/

/-- C6, counterexample: the command is one wrapper level (depth advances
once), but the inner command is a blank string, and the unwrapper returns
it with wasUnwrapped false. -/
theorem c6_counterexample :
    wrapperStep (jsTrim (("bash -c \" \"").data)) = some ([' ']) ∧
    unwrapCommand (("bash -c \" \"").data) 0 = ([' '], false) := by
  exact ⟨by decide, by decide⟩

/-! ### Claim C7, counterexample -/

/-- compile parameter under which every expression, the empty one
included, compiles (as with the JavaScript RegExp constructor, for which
an empty pattern is valid). -/
def tcAlways : List Char → Option (List Char → Bool) :=
  fun _ => some (fun _ => false)

/-- C7, counterexample: a pattern whose empty expression compiles fine is
nevertheless dropped by the compiler, so not every pattern other than the
non-compiling ones is kept. -/
theorem c7_counterexample :
    tcAlways [] ≠ none ∧
    compileRegexPatterns tcAlways [⟨[], "r".data, false⟩] = [] := by
  exact ⟨by simp [tcAlways], rfl⟩

/-! ### Claim C6, amended theorem -/

/-- at any recursion depth of at least one, the unwrapper either reports
wasUnwrapped or is returning a blank command. -/
theorem unwrapFuel_flag (fuel : Nat) : ∀ (cmd : List Char) (depth : Nat), 1 ≤ depth →
    (unwrapFuel fuel cmd depth).2 = true ∨ jsTrim (unwrapFuel fuel cmd depth).1 = [] := by
  induction fuel with
  | zero =>
    intro cmd depth h
    left
    simp only [unwrapFuel, decide_eq_true_eq]
    omega
  | succ n ih =>
    intro cmd depth h
    by_cases h5 : 5 ≤ depth
    · left
      simp only [unwrapFuel, if_pos h5, decide_eq_true_eq]
      omega
    · by_cases hb : (cmd.isEmpty || (jsTrim cmd).isEmpty) = true
      · right
        simp only [unwrapFuel, if_neg h5, if_pos hb]
        have hb2 : cmd.isEmpty = true ∨ (jsTrim cmd).isEmpty = true := by simpa using hb
        rcases hb2 with h1 | h2
        · have hc : cmd = [] := List.isEmpty_iff.mp h1
          simp [hc, jsTrim]
        · exact List.isEmpty_iff.mp h2
      · have hb' : (cmd.isEmpty || (jsTrim cmd).isEmpty) = false := by
          simpa using hb
        cases hw : wrapperStep (jsTrim cmd) with
        | some inner =>
          have hrec := ih inner (depth + 1) (by omega)
          simpa only [unwrapFuel, if_neg h5, hb', Bool.false_eq_true, if_false, hw] using hrec
        | none =>
          left
          simp only [unwrapFuel, if_neg h5, hb', Bool.false_eq_true, if_false, hw,
            decide_eq_true_eq]
          omega

/-- C6, amended: recursion stops once depth reaches 5 regardless of
further wrapper matches, returning the command found so far; whenever
depth advanced at least once the returned wasUnwrapped flag is true
unless the command being returned is empty or whitespace-only (a blank
inner command is returned with the flag false). -/
theorem c6_unwrap_depth_flag : ∀ (cmd : List Char) (depth : Nat),
    (5 ≤ depth → unwrapCommand cmd depth = (cmd, decide (0 < depth))) ∧
    (1 ≤ depth →
      (unwrapCommand cmd depth).2 = true ∨ jsTrim (unwrapCommand cmd depth).1 = []) ∧
    (cmd.isEmpty = false → (jsTrim cmd).isEmpty = false →
      wrapperStep (jsTrim cmd) ≠ none →
      (unwrapCommand cmd 0).2 = true ∨ jsTrim (unwrapCommand cmd 0).1 = []) := by
  intro cmd depth
  refine ⟨?_, ?_, ?_⟩
  · intro h5
    have h0 : 5 - depth = 0 := Nat.sub_eq_zero_of_le h5
    rw [unwrapCommand, h0]
    rfl
  · intro h1
    exact unwrapFuel_flag (5 - depth) cmd depth h1
  · intro hne hnt hw
    rcases hopt : wrapperStep (jsTrim cmd) with _ | inner
    · exact absurd hopt hw
    · have hstep : unwrapCommand cmd 0 = unwrapFuel 4 inner 1 := by
        rw [unwrapCommand]
        simp only [Nat.sub_zero]
        simp only [unwrapFuel, hne, hnt, Bool.or_self, Bool.false_eq_true, if_false, hopt]
        norm_num
      rw [hstep]
      exact unwrapFuel_flag 4 inner 1 (by omega)

/-- C6, witness: the depth cap and the flag property applied at depth 7,
at depth 1, and to a top-level call that enters one wrapper level. -/
theorem c6_witness :
    unwrapCommand ("ls".data) 7 = ("ls".data, true) ∧
    ((unwrapCommand ("ls".data) 1).2 = true ∨ jsTrim (unwrapCommand ("ls".data) 1).1 = []) ∧
    ((unwrapCommand ("bash -c \"ls\"".data) 0).2 = true ∨
      jsTrim (unwrapCommand ("bash -c \"ls\"".data) 0).1 = []) := by
  refine ⟨?_, ?_, ?_⟩
  · have h := (c6_unwrap_depth_flag ("ls".data) 7).1 (by omega)
    simpa using h
  · exact (c6_unwrap_depth_flag ("ls".data) 1).2.1 (by omega)
  · exact (c6_unwrap_depth_flag ("bash -c \"ls\"".data) 0).2.2 (by decide) (by decide)
      (by decide)

/-! ### Claim C4 -/

/-- claim-side danger predicate for git push: safe when the argument text
contains the lease flag, else dangerous exactly when the arguments
contain the long or short force flag or a short-flag cluster with the
letter f. -/
def pushDangerSpec (args : List (List Char)) : Bool :=
  if containsSub (joinSpace args) ("--force-with-lease".data) then false
  else hasTok args ("--force".data) || hasTok args ("-f".data) ||
    args.any (fun a => shortClusterHas a 'f')

/-- C4: on every command whose trimmed, tokenized form is git push
followed by arguments, the analyzer reports dangerous exactly as the
claim states: never when the lease flag is present, otherwise precisely
on a force flag or a short-flag cluster containing f. -/
theorem c4_push_force : ∀ (command : List Char) (args : List (List Char)),
    ("git ".data).isPrefixOf (jsTrim command) = true →
    splitWs (jsTrim command) = ("git".data) :: ("push".data) :: args →
    (analyzeGitCommand command).1 = pushDangerSpec args := by
  intro cmd args hpre hsplit
  have htne : (jsTrim cmd).isEmpty = false := by
    cases h : jsTrim cmd with
    | nil => rw [h] at hpre; simp [List.isPrefixOf] at hpre
    | cons a t => simp
  have hcne : cmd.isEmpty = false := by
    cases hc : cmd with
    | nil => rw [hc] at htne; simp [jsTrim] at htne
    | cons a t => simp
  have hlen : ¬ (("git".data :: "push".data :: args).length < 2) := by
    simp
  have ne1 : ¬ (("push".data : List Char) = "checkout".data) := by decide
  have epush : (("push".data : List Char) = "push".data) := rfl
  simp only [analyzeGitCommand, hcne, htne, Bool.or_self, Bool.false_eq_true, if_false,
    hpre, Bool.not_true, hsplit, if_neg hlen, List.get?, Option.getD_some, List.drop,
    if_neg ne1, if_pos epush]
  unfold pushDangerSpec
  by_cases hl : containsSub (joinSpace args) ("--force-with-lease".data) = true
  · simp [hl]
  · have hlf : containsSub (joinSpace args) ("--force-with-lease".data) = false := by
      simpa using hl
    by_cases h1 : hasTok args ("--force".data) = true
    · simp [hlf, h1]
    · have h1f : hasTok args ("--force".data) = false := by simpa using h1
      by_cases h2 : hasTok args ("-f".data) = true
      · simp [hlf, h1f, h2]
      · have h2f : hasTok args ("-f".data) = false := by simpa using h2
        by_cases h3 : (args.any (fun a => shortClusterHas a 'f')) = true
        · simp [hlf, h1f, h2f, h3]
        · have h3f : (args.any (fun a => shortClusterHas a 'f')) = false := by simpa using h3
          simp [hlf, h1f, h2f, h3f]

/-- C4, witness: on git push --force --force-with-lease the analyzer
agrees with the claim predicate (the lease flag wins and the result is
not dangerous). -/
theorem c4_witness :
    ("git ".data).isPrefixOf (jsTrim ("git push --force --force-with-lease".data)) = true ∧
    splitWs (jsTrim ("git push --force --force-with-lease".data)) =
      ("git".data) :: ("push".data) :: [("--force".data), ("--force-with-lease".data)] ∧
    (analyzeGitCommand ("git push --force --force-with-lease".data)).1 =
      pushDangerSpec [("--force".data), ("--force-with-lease".data)] := by
  refine ⟨by decide, by decide, c4_push_force _ _ (by decide) (by decide)⟩

/-! ### Claim C5 -/

/-- C5: whenever the semantic-git check is consulted (not relaxed by the
active context) and the analyzer reports dangerous on the unwrapped
command, the command check returns ask and not blocked, with the
analyzer's reason attached. -/
theorem c5_git_dangerous_asks : ∀ (command : List Char) (cfg : CompiledConfig)
    (context : Option (List Char)),
    (relaxedChecksOf cfg.contexts context).contains ("semantic_git".data) = false →
    (analyzeGitCommand (unwrapCommand command 0).1).1 = true →
    checkCommand command cfg context =
      ⟨false, true, (analyzeGitCommand (unwrapCommand command 0).1).2,
        "semantic_git".data, (unwrapCommand command 0).2, true⟩ := by
  intro cmd cfg ctx hrel hdang
  have hrel2 : ¬ (("semantic_git".data : List Char) ∈ relaxedChecksOf cfg.contexts ctx) := by
    simpa using hrel
  unfold checkCommand gitStage
  simp [hrel2, hdang]

/-- C5, witness: git push --force with an empty configuration and no
context yields the ask result carrying the analyzer's reason. -/
theorem c5_witness :
    ((relaxedChecksOf emptyCfg.contexts none).contains ("semantic_git".data) = false) ∧
    ((analyzeGitCommand (unwrapCommand ("git push --force".data) 0).1).1 = true) ∧
    checkCommand ("git push --force".data) emptyCfg none =
      ⟨false, true, (analyzeGitCommand (unwrapCommand ("git push --force".data) 0).1).2,
        "semantic_git".data, (unwrapCommand ("git push --force".data) 0).2, true⟩ := by
  refine ⟨by decide, by decide, c5_git_dangerous_asks _ _ _ (by decide) (by decide)⟩

/-! ### Claim C9 -/

/-- every result produced by the semantic-git stage has blocked and ask
not both set. -/
theorem gitStage_excl : ∀ (relaxed : List (List Char)) (uw : List Char) (w : Bool)
    (r : CheckResult), gitStage relaxed uw w = some r → (r.blocked && r.ask) = false := by
  intro relaxed uw w r h
  unfold gitStage at h
  split at h
  · simp at h
  · split at h
    · injection h with h2
      subst h2
      rfl
    · simp at h

/-- every result produced by the pattern loop has blocked and ask not
both set. -/
theorem patLoop_excl : ∀ (uw : List Char) (w : Bool) (ps : List CompiledPattern)
    (idx : Nat) (r : CheckResult),
    patLoop uw w idx ps = some r → (r.blocked && r.ask) = false := by
  intro uw w ps
  induction ps with
  | nil => intro idx r h; simp [patLoop] at h
  | cons p rest ih =>
    intro idx r h
    unfold patLoop at h
    split at h
    · split at h
      · injection h with h2
        subst h2
        rfl
      · injection h with h2
        subst h2
        rfl
    · exact ih (idx + 1) r h

/-- every result produced by the zero-access loop has blocked and ask not
both set. -/
theorem zeroLoop_excl : ∀ (uw : List Char) (w : Bool) (zs : List PathObject)
    (r : CheckResult), zeroLoop uw w zs = some r → (r.blocked && r.ask) = false := by
  intro uw w zs
  induction zs with
  | nil => intro r h; simp [zeroLoop] at h
  | cons po rest ih =>
    intro r h
    unfold zeroLoop at h
    split at h
    · split at h
      · split at h
        · injection h with h2
          subst h2
          rfl
        · exact ih r h
      · exact ih r h
    · split at h
      · injection h with h2
        subst h2
        rfl
      · exact ih r h

/-- every result produced by the read-only loop has blocked and ask not
both set. -/
theorem roLoop_excl : ∀ (uw : List Char) (w : Bool) (ros : List PathObject)
    (r : CheckResult), roLoop uw w ros = some r → (r.blocked && r.ask) = false := by
  intro uw w ros
  induction ros with
  | nil => intro r h; simp [roLoop] at h
  | cons po rest ih =>
    intro r h
    unfold roLoop at h
    split at h
    · injection h with h2
      subst h2
      rfl
    · exact ih r h

/-- every result produced by the no-delete loop has blocked and ask not
both set. -/
theorem ndLoop_excl : ∀ (uw : List Char) (w : Bool) (nds : List PathObject)
    (r : CheckResult), ndLoop uw w nds = some r → (r.blocked && r.ask) = false := by
  intro uw w nds
  induction nds with
  | nil => intro r h; simp [ndLoop] at h
  | cons po rest ih =>
    intro r h
    unfold ndLoop at h
    split at h
    · injection h with h2
      subst h2
      rfl
    · exact ih r h

/-- stage wrappers preserve the loop invariants. -/
theorem patStage_excl : ∀ relaxed uw w ps r,
    patStage relaxed uw w ps = some r → (r.blocked && r.ask) = false := by
  intro relaxed uw w ps r h
  unfold patStage at h
  split at h
  · simp at h
  · exact patLoop_excl uw w ps 0 r h

theorem zeroStage_excl : ∀ relaxed uw w zs r,
    zeroStage relaxed uw w zs = some r → (r.blocked && r.ask) = false := by
  intro relaxed uw w zs r h
  unfold zeroStage at h
  split at h
  · simp at h
  · exact zeroLoop_excl uw w zs r h

theorem roStage_excl : ∀ relaxed uw w ros r,
    roStage relaxed uw w ros = some r → (r.blocked && r.ask) = false := by
  intro relaxed uw w ros r h
  unfold roStage at h
  split at h
  · simp at h
  · exact roLoop_excl uw w ros r h

theorem ndStage_excl : ∀ relaxed uw w nds r,
    ndStage relaxed uw w nds = some r → (r.blocked && r.ask) = false := by
  intro relaxed uw w nds r h
  unfold ndStage at h
  split at h
  · simp at h
  · exact ndLoop_excl uw w nds r h

/-- C9: the Bash command check never returns a result with blocked and
ask both true; every decision is exactly one of block, ask, allow. -/
theorem c9_exclusive_verdict : ∀ (command : List Char) (cfg : CompiledConfig)
    (context : Option (List Char)),
    ((checkCommand command cfg context).blocked && (checkCommand command cfg context).ask)
      = false := by
  intro cmd cfg ctx
  unfold checkCommand
  cases hg : gitStage (relaxedChecksOf cfg.contexts ctx) (unwrapCommand cmd 0).1
      (unwrapCommand cmd 0).2 with
  | some r => simpa [hg] using gitStage_excl _ _ _ r hg
  | none =>
    cases hp : patStage (relaxedChecksOf cfg.contexts ctx) (unwrapCommand cmd 0).1
        (unwrapCommand cmd 0).2 cfg.bashToolPatterns_compiled with
    | some r => simpa [hg, hp] using patStage_excl _ _ _ _ r hp
    | none =>
      cases hz : zeroStage (relaxedChecksOf cfg.contexts ctx) (unwrapCommand cmd 0).1
          (unwrapCommand cmd 0).2 cfg.zeroAccessPaths_compiled with
      | some r => simpa [hg, hp, hz] using zeroStage_excl _ _ _ _ r hz
      | none =>
        cases hr : roStage (relaxedChecksOf cfg.contexts ctx) (unwrapCommand cmd 0).1
            (unwrapCommand cmd 0).2 cfg.readOnlyPaths_compiled with
        | some r => simpa [hg, hp, hz, hr] using roStage_excl _ _ _ _ r hr
        | none =>
          cases hn : ndStage (relaxedChecksOf cfg.contexts ctx) (unwrapCommand cmd 0).1
              (unwrapCommand cmd 0).2 cfg.noDeletePaths_compiled with
          | some r => simpa [hg, hp, hz, hr, hn] using ndStage_excl _ _ _ _ r hn
          | none => simp [hg, hp, hz, hr, hn]

/-! ### Claim C10 -/

/-- C10: a request whose tool name is not Bash, or whose command is
missing or empty, is allowed by the Bash hook under every configuration
(no pattern, path-tier, unwrapping or git check can influence the
outcome, since the configuration is universally quantified). -/
theorem c10_non_bash_allow : ∀ (disabled : Bool)
    (tc : List Char → Option (List Char → Bool)) (input : HookInput)
    (cfg : CompiledConfig),
    (¬ input.tool_name = "Bash".data ∨ input.tool_input.command = none ∨
      input.tool_input.command = some []) →
    bashHookMain disabled tc input cfg = .allow := by
  intro d tc input cfg h
  unfold bashHookMain
  by_cases hd : d = true
  · simp [hd]
  · rcases h with h1 | h2 | h3
    · simp [h1]
    · simp [h2]
    · simp [h3]

/-- C10, witness: a Write request and a Bash request with an empty
command are both allowed. -/
theorem c10_witness :
    bashHookMain false (fun _ => none) ⟨"Write".data, ⟨none, some ([])⟩⟩ emptyCfg = .allow ∧
    bashHookMain false (fun _ => none) ⟨"Bash".data, ⟨some [], none⟩⟩ emptyCfg = .allow := by
  refine ⟨c10_non_bash_allow _ _ _ _ (Or.inl (by decide)),
    c10_non_bash_allow _ _ _ _ (Or.inr (Or.inr rfl))⟩

/-! ### Claim C7 -/

/-- claim-side first matching compiled pattern, with its position, in
configured order. -/
def firstMatchIdx (uw : List Char) (pats : List CompiledPattern) :
    Option (Nat × CompiledPattern) :=
  (List.enumFrom 0 pats).find? (fun ip => ip.2.compiled uw)

/-- the pattern loop returns exactly the verdict of the first matching
pattern in order. -/
theorem patLoop_eq_find : ∀ (uw : List Char) (w : Bool) (ps : List CompiledPattern)
    (idx : Nat),
    patLoop uw w idx ps =
      ((List.enumFrom idx ps).find? (fun ip => ip.2.compiled uw)).map
        (fun ip =>
          if ip.2.ask then ⟨false, true, ip.2.reason, patId ip.1, w, false⟩
          else ⟨true, false, ("Blocked: ".data) ++ ip.2.reason, patId ip.1, w, false⟩) := by
  intro uw w ps
  induction ps with
  | nil => intro idx; rfl
  | cons p rest ih =>
    intro idx
    by_cases hm : p.compiled uw = true
    · simp [patLoop, List.enumFrom, List.find?, hm]
      split <;> rfl
    · have hmf : p.compiled uw = false := by simpa using hm
      simp [patLoop, List.enumFrom, List.find?, hmf, ih]

/-- C7, amended: compilation is total and keeps, in their original order,
exactly the patterns with a non-empty expression that the regex compiler
accepts (an invalid expression is dropped; an empty expression is dropped
too); during evaluation the first compiled pattern in that order matching
the unwrapped command determines the verdict, block or ask as the pattern
declares. -/
theorem c7_compile_order_first_match :
    (∀ (tc : List Char → Option (List Char → Bool)) (ps : List Pattern),
      compileRegexPatterns tc ps = ps.filterMap (fun p =>
        if p.pattern.isEmpty then none
        else (tc p.pattern).map
          (fun f => (⟨p.pattern, p.reason, p.ask, f⟩ : CompiledPattern)))) ∧
    (∀ (command : List Char) (cfg : CompiledConfig) (context : Option (List Char))
      (i : Nat) (p : CompiledPattern),
      (relaxedChecksOf cfg.contexts context).contains ("bashToolPatterns".data) = false →
      gitStage (relaxedChecksOf cfg.contexts context) (unwrapCommand command 0).1
        (unwrapCommand command 0).2 = none →
      firstMatchIdx (unwrapCommand command 0).1 cfg.bashToolPatterns_compiled =
        some (i, p) →
      checkCommand command cfg context =
        (if p.ask then ⟨false, true, p.reason, patId i, (unwrapCommand command 0).2, false⟩
         else ⟨true, false, ("Blocked: ".data) ++ p.reason, patId i,
           (unwrapCommand command 0).2, false⟩)) := by
  constructor
  · intro tc ps
    induction ps with
    | nil => rfl
    | cons p rest ih =>
      by_cases he : p.pattern.isEmpty = true
      · have he2 : p.pattern = [] := List.isEmpty_iff.mp he
        simp [compileRegexPatterns, he, he2, List.filterMap_cons, ih]
      · have hef : p.pattern.isEmpty = false := by simpa using he
        have hef2 : ¬ (p.pattern = []) := fun hnil => he (by simp [hnil])
        cases ht : tc p.pattern with
        | some f => simp [compileRegexPatterns, hef, hef2, ht, List.filterMap_cons, ih]
        | none => simp [compileRegexPatterns, hef, hef2, ht, List.filterMap_cons, ih]
  · intro cmd cfg ctx i p hrel hgit hfind
    unfold firstMatchIdx at hfind
    unfold checkCommand
    simp only [hgit]
    simp only [patStage, hrel, Bool.false_eq_true, if_false]
    rw [patLoop_eq_find, hfind]
    rfl

/-- configuration with one compiled pattern matching every command. -/
def matchAllCfg : CompiledConfig :=
  ⟨[⟨"a".data, "r".data, false, fun _ => true⟩], [], [], [], noCtx⟩

/-- C7, witness: the compilation equation applied to a one-pattern list,
and the first-match evaluation applied to a configuration whose single
blocking pattern matches. -/
theorem c7_witness :
    (compileRegexPatterns tcAlways [⟨"a".data, "r".data, false⟩] =
      [(⟨"a".data, "r".data, false⟩ : Pattern)].filterMap (fun p =>
        if p.pattern.isEmpty then none
        else (tcAlways p.pattern).map
          (fun f => (⟨p.pattern, p.reason, p.ask, f⟩ : CompiledPattern)))) ∧
    (checkCommand ("ls".data) matchAllCfg none).blocked = true := by
  constructor
  · exact c7_compile_order_first_match.1 tcAlways _
  · have h := c7_compile_order_first_match.2 ("ls".data) matchAllCfg none 0
      ⟨"a".data, "r".data, false, fun _ => true⟩ (by decide) (by decide) rfl
    rw [h]
    rfl

/-! ### Claim C2, amended theorem -/

/-- home expansion commutes with appending a non-tilde character. -/
theorem expandTilde_append_one (R home : List Char) (c : Char) (hc : c ≠ '~') :
    expandTilde (R ++ [c]) home = expandTilde R home ++ [c] := by
  cases R with
  | nil => simp [expandTilde, hc]
  | cons a R2 => by_cases ha : a = '~' <;> simp [expandTilde, ha]

/-- home expansion of a rule without a trailing slash, under a home
directory without a trailing slash, has no trailing slash. -/
theorem lastIsSlash_expandTilde (R home : List Char) (hR : lastIsSlash R = false)
    (hH : lastIsSlash home = false) : lastIsSlash (expandTilde R home) = false := by
  cases R with
  | nil => simpa [expandTilde] using hR
  | cons a R2 =>
    by_cases ha : a = '~'
    · cases R2 with
      | nil => simpa [expandTilde, ha, lastIsSlash] using hH
      | cons b R3 =>
        have h1 : lastIsSlash (home ++ (b :: R3)) = lastIsSlash (b :: R3) := by
          unfold lastIsSlash
          rw [List.getLast?_append_of_ne_nil home (by simp)]
        have h2 : lastIsSlash (a :: b :: R3) = lastIsSlash (b :: R3) := by
          unfold lastIsSlash
          rw [List.getLast?_cons_cons]
        rw [show expandTilde (a :: b :: R3) home = home ++ (b :: R3) from by
          simp [expandTilde, ha]]
        rw [h1, ← h2]
        exact hR
    · simpa [expandTilde, ha] using hR

/-- C2, amended: the no-partial-token property holds for the Write-tool
path matcher: a literal rule without a trailing slash never matches the
path consisting of the rule followed by an alphanumeric, dot, underscore
or dash character.  (The zero-access command check enforces the same
boundary through its lookahead suffix, but the read-only and no-delete
command checks substitute the rule into the operation templates with no
boundary, so there such a sibling path does match; see the
counterexample.) -/
theorem c2_matchPath_boundary : ∀ (normalize : List Char → List Char)
    (homedir R : List Char) (c : Char),
    isGlobPattern R = false →
    lastIsSlash R = false →
    lastIsSlash homedir = false →
    isSuffixGuardChar c = true →
    normalize (R ++ [c]) = R ++ [c] →
    matchPath normalize homedir (R ++ [c]) R = false := by
  intro n home R c hg hR hH hc hnorm
  have hct : c ≠ '~' := by
    intro he
    rw [he] at hc
    exact absurd hc (by decide)
  have hcs : c ≠ '/' := by
    intro he
    rw [he] at hc
    exact absurd hc (by decide)
  have hexp : expandTilde (n (R ++ [c])) home = expandTilde R home ++ [c] := by
    rw [hnorm, expandTilde_append_one R home c hct]
  have hPns : lastIsSlash (expandTilde R home) = false :=
    lastIsSlash_expandTilde R home hR hH
  have hstrip : stripTrailingSlash (expandTilde R home) = expandTilde R home := by
    simp [stripTrailingSlash, hPns]
  have hne1 : ¬ (expandTilde R home ++ [c] = expandTilde R home) := by
    intro he
    have hlen := congrArg List.length he
    simp at hlen
  have hpre : ∀ (d : Char), d ≠ c →
      ((expandTilde R home ++ [d]).isPrefixOf (expandTilde R home ++ [c])) = false := by
    intro d hd
    by_cases hp : ((expandTilde R home ++ [d]).isPrefixOf (expandTilde R home ++ [c])) = true
    · exfalso
      have hpp : (expandTilde R home ++ [d]) <+: (expandTilde R home ++ [c]) := by
        simpa using hp
      have heq := hpp.eq_of_length (by simp)
      have hdc := List.append_cancel_left heq
      simp at hdc
      exact hd hdc
    · cases hb : ((expandTilde R home ++ [d]).isPrefixOf (expandTilde R home ++ [c])) with
      | false => rfl
      | true => exact absurd hb hp
  have hps : pathSep = '/' := rfl
  unfold matchPath
  simp only [hg, Bool.false_eq_true, if_false, hexp, hstrip, hPns, hps]
  simp [hne1, hpre '/' (fun he => hcs he.symm)]

/-- C2, witness: the boundary property applied to the rule of the claim's
example, with the dot that starts the .example suffix. -/
theorem c2_witness :
    isGlobPattern ("~/.env".data) = false ∧
    lastIsSlash ("~/.env".data) = false ∧
    lastIsSlash ("/home/u".data) = false ∧
    isSuffixGuardChar '.' = true ∧
    matchPath id ("/home/u".data) (("~/.env".data) ++ ['.']) ("~/.env".data) = false := by
  refine ⟨by decide, by decide, by decide, by decide,
    c2_matchPath_boundary id ("/home/u".data) ("~/.env".data) '.' (by decide) (by decide)
      (by decide) (by decide) rfl⟩

/-! ### Claim C8 -/

/-- the rule loop is the first rule matching the path, in configured
order. -/
theorem firstMatchingRule_eq_find : ∀ (n : List Char → List Char) (home fp : List Char)
    (rules : List (List Char)),
    firstMatchingRule n home fp rules = rules.find? (fun r => matchPath n home fp r) := by
  intro n home fp rules
  induction rules with
  | nil => rfl
  | cons r rest ih =>
    by_cases hm : matchPath n home fp r = true
    · simp [firstMatchingRule, List.find?, hm]
    · have hmf : matchPath n home fp r = false := by simpa using hm
      simp [firstMatchingRule, List.find?, hmf, ih]

/-- claim-side classification of a Write-tool path: zero-access rules
first, read-only rules second, first matching rule blocks with that
rule's tier named in the reason; nothing besides the two path-rule lists
and the relaxation set is consulted (in particular no command-pattern,
semantic-git or no-delete check exists for this tool). -/
def checkPathClaim (normalize : List Char → List Char) (homedir fp : List Char)
    (cfg : WConfig) (context : Option (List Char)) : Bool × List Char :=
  match (if (relaxedOfW cfg.contexts context).contains ("zeroAccessPaths".data) then none
         else cfg.zeroAccessPaths.find? (fun r => matchPath normalize homedir fp r)) with
  | some zp => (true, ("zero-access path ".data) ++ zp ++ (" (no operations allowed)".data))
  | none =>
    match (if (relaxedOfW cfg.contexts context).contains ("readOnlyPaths".data) then none
           else cfg.readOnlyPaths.find? (fun r => matchPath normalize homedir fp r)) with
    | some rp => (true, ("read-only path ".data) ++ rp)
    | none => (false, [])

/-- C8: the Write-tool path check equals the claim-side classification
(zero-access tier first, read-only second, first matching rule blocks),
and when a zero-access rule matches and that tier is active the outcome
does not depend on the read-only rules at all, so the path is reported as
zero-access even if a read-only rule also matches. -/
theorem c8_checkPath_order : ∀ (normalize : List Char → List Char)
    (homedir fp : List Char) (cfg : WConfig) (context : Option (List Char)),
    checkPath normalize homedir fp cfg context =
      checkPathClaim normalize homedir fp cfg context ∧
    (∀ (ros2 : List (List Char)),
      (relaxedOfW cfg.contexts context).contains ("zeroAccessPaths".data) = false →
      firstMatchingRule normalize homedir fp cfg.zeroAccessPaths ≠ none →
      checkPath normalize homedir fp cfg context =
        checkPath normalize homedir fp ⟨cfg.zeroAccessPaths, ros2, cfg.contexts⟩ context) := by
  intro n home fp cfg ctx
  constructor
  · unfold checkPath checkPathClaim
    simp only [firstMatchingRule_eq_find]
  · intro ros2 hrel hne
    rcases hfind : firstMatchingRule n home fp cfg.zeroAccessPaths with _ | zp
    · exact absurd hfind hne
    · unfold checkPath
      simp only [hrel, Bool.false_eq_true, if_false, hfind]

/-- Write configuration where both a zero-access directory rule and a
read-only rule match the same path. -/
def wCfgEx : WConfig := ⟨[("/a/".data)], [("/a/b".data)], ⟨none⟩⟩

/-- C8, witness: the characterization and the read-only-independence
applied to a path matched by both tiers. -/
theorem c8_witness :
    checkPath id ("/h".data) ("/a/b".data) wCfgEx none =
      checkPathClaim id ("/h".data) ("/a/b".data) wCfgEx none ∧
    checkPath id ("/h".data) ("/a/b".data) wCfgEx none =
      checkPath id ("/h".data) ("/a/b".data) ⟨wCfgEx.zeroAccessPaths, [], wCfgEx.contexts⟩
        none := by
  refine ⟨(c8_checkPath_order id _ _ wCfgEx none).1,
    (c8_checkPath_order id _ _ wCfgEx none).2 [] (by decide) (by decide)⟩
